import Mathlib

/-!
Verification of the `simplepool` fixed-capacity object pool (Go).

The source is a ~120-line Go package built around one buffered channel
`idle chan T` (capacity `Count`) plus a one-shot `stopping` channel.
We shallowly embed it:

* the channel buffer is a FIFO `List T` (head = oldest element);
* `New` runs the construction loop of `pool.go` lines 50-62, with the
  caller's constructor modelled as a function from call index to
  `Except String T` and the destructor's presence as a `Bool` (the
  destructor itself is opaque; we record the trace of objects passed to it);
* `Get` is Go's three-way `select`, which commits nondeterministically to
  any ready case, so it is a step relation `GetStep`, not a function;
* `Stop` is the raise-signal-then-drain of `pool.go` lines 73-87; the
  drain performs exactly `capacity` channel receives, consuming first the
  buffered idle objects and then objects sent by later `Put` calls
  (`arrivals`), in arrival order; `none` models a `Stop` that blocks
  forever because fewer than `capacity` objects ever come back;
* a small-step system `Sys`/`Step` interleaves Get/Put/raise/drain at the
  granularity of individual channel operations, to state reachability
  invariants;
* `Chan` models the Go runtime's buffered channel with its FIFO queue of
  blocked receivers (`recvq`), the mechanism the spec appeals to for
  waiter fairness.
-/

namespace SimplePool

/-- Errors returned by the pool, mirroring `pool.go` / `config.go`:
`configErr` for `Config.Check` failures, `newErr cause` for
`fmt.Errorf("%w: %v", ErrNew, err)` (the pool-creation error wrapping
`ErrNew` and carrying the cause's message), `stoppingOrStopped` for
`ErrStoppingOrStopped`, and `cancelledErr cause` for `ctx.Err()`. -/
inductive Err where
  | configErr (msg : String)
  | newErr (cause : String)
  | stoppingOrStopped
  | cancelledErr (cause : String)
deriving DecidableEq, Repr

/-- A cancellation token (`context.Context`): whether it has fired, and the
cause reported by `ctx.Err()`. -/
structure Ctx where
  cancelled : Bool
  cause : String
deriving DecidableEq, Repr

/-- `Config` from `config.go`. `NewFunc` is nil-able (`Option`); when
present it gives the result of the i-th constructor call (0-indexed).
`hasDestroyFunc` records whether the optional `DestroyFunc` is non-nil. -/
structure Config (T : Type) where
  Count : Int
  NewFunc : Option (Nat → Except String T)
  hasDestroyFunc : Bool

/-- `Config.Check` from `config.go` lines 22-30: rejects a negative count,
then a missing constructor. Returns `some msg` on error, `none` on ok. -/
def Config.Check {T : Type} (c : Config T) : Option String :=
  if c.Count < 0 then some "count must be greater than or equal to zero"
  else if c.NewFunc.isNone then some "newFunc is required"
  else none

/-- The pool's mutable state: the contents of the buffered channel
`idle chan T` (head = oldest, i.e. next to be received), its capacity
`cap(p.idle)`, and whether the `stopping` channel has been closed. -/
structure Pool (T : Type) where
  idle : List T
  capacity : Nat
  stopping : Bool
deriving DecidableEq, Repr

/-- The construction loop of `New` (`pool.go` lines 50-62): call the
constructor once per remaining slot (`i` is the index of the next call),
pushing each object onto the channel; on the first failure return the
cause together with the channel contents at that moment — exactly the
objects built so far, in construction order — which `New` then drains and
destroys. -/
def newFill {T : Type} (f : Nat → Except String T) :
    Nat → Nat → List T → Except (String × List T) (List T)
  | _, 0, idle => .ok idle
  | i, r + 1, idle =>
    match f i with
    | .error e => .error (e, idle)
    | .ok object => newFill f (i + 1) r (idle ++ [object])

/-- What `New` returns: the Go pair `(*Pool[T], error)` as two `Option`s,
plus the trace of objects passed to the destructor during rollback. -/
structure NewResult (T : Type) where
  pool : Option (Pool T)
  err : Option Err
  destroyed : List T
deriving Repr

/-- `New` from `pool.go` lines 37-65: check the config; build the pool
state; run the construction loop; on failure drain-and-destroy the
partially built objects (destructor invoked only if present) and return
the `ErrNew`-wrapping error; on success return the pool with all
`Count` objects idle. -/
def New {T : Type} (c : Config T) : NewResult T :=
  match c.Check with
  | some msg => ⟨none, some (.configErr msg), []⟩
  | none =>
    match c.NewFunc with
    | none => ⟨none, some (.configErr "newFunc is required"), []⟩
    | some f =>
      match newFill f 0 c.Count.toNat [] with
      | .error (e, built) =>
        ⟨none, some (.newErr e), if c.hasDestroyFunc then built else []⟩
      | .ok idle => ⟨some ⟨idle, c.Count.toNat, false⟩, none, []⟩

/-- The possible results of `Get` (`pool.go` lines 104-115): an object from
the idle channel, or the zero value of `T` together with `ctx.Err()`
(constructor `cancelled`, carrying the cause), or the zero value together
with `ErrStoppingOrStopped` (constructor `stopped`). -/
inductive GetOutcome (T : Type) where
  | obj (x : T)
  | cancelled (cause : String)
  | stopped
deriving DecidableEq, Repr

/-- The three-way `select` of `Get`. Go's `select` commits to any case
that is ready (choosing uniformly at random when several are), so this is
a relation: `GetStep p ctx o p'` holds iff the select, run in pool state
`p` with token `ctx`, can return outcome `o` leaving state `p'`. A ready
`<-p.idle` takes the oldest buffered object; `<-ctx.Done()` is ready iff
the token has fired; `<-p.stopping` is ready iff the signal was raised.
If no case is ready (`idle` empty, token live, not stopping) there is no
step: the call blocks. -/
inductive GetStep {T : Type} : Pool T → Ctx → GetOutcome T → Pool T → Prop where
  | idle (p : Pool T) (ctx : Ctx) (x : T) (rest : List T) :
      p.idle = x :: rest → GetStep p ctx (.obj x) { p with idle := rest }
  | cancel (p : Pool T) (ctx : Ctx) :
      ctx.cancelled = true → GetStep p ctx (.cancelled ctx.cause) p
  | stop (p : Pool T) (ctx : Ctx) :
      p.stopping = true → GetStep p ctx .stopped p

/-- `Put` from `pool.go` lines 118-120: `p.idle <- object` appends to the
back of the FIFO buffer. (Under correct use the buffer always has room,
so the send never blocks; that is proved separately, not assumed here.) -/
def Put {T : Type} (p : Pool T) (x : T) : Pool T :=
  { p with idle := p.idle ++ [x] }

/-- `Stop` from `pool.go` lines 73-87. If the signal is already raised it
returns at once, destroying nothing. Otherwise it closes `stopping` and
performs exactly `capacity` receives on the idle channel: these consume
the buffered idle objects first and then objects sent by subsequent `Put`
calls (`arrivals`), in that order, each destroyed as it is received.
`none` means `Stop` never returns: fewer than `capacity` objects are in
the channel or ever arrive. The second component is the list of destroyed
objects, in destruction order (each passed to the destructor when one is
present). -/
def Stop {T : Type} (p : Pool T) (arrivals : List T) : Option (Pool T × List T) :=
  if p.stopping then some (p, [])
  else if p.capacity ≤ p.idle.length + arrivals.length then
    some ({ p with stopping := true, idle := (p.idle ++ arrivals).drop p.capacity },
          (p.idle ++ arrivals).take p.capacity)
  else none

/-- Global small-step state: the channel buffer `idle`, the multiset of
objects currently held by callers (`borrowed`, in no particular order —
the list order is immaterial, membership and count are what matter), the
objects destroyed so far by `Stop`'s drain, the stop flag, and the fixed
channel capacity. -/
structure Sys (T : Type) where
  idle : List T
  borrowed : List T
  destroyed : List T
  stopping : Bool
  capacity : Nat
deriving DecidableEq, Repr

/-- The state right after a successful `New` with the given constructed
objects: all idle, none borrowed, none destroyed, not stopping. -/
def Sys.init {T : Type} (objects : List T) : Sys T :=
  ⟨objects, [], [], false, objects.length⟩

/-- One atomic channel operation, under correct use:
`get` — a `Get`'s select commits to the idle case (possible whenever the
buffer is non-empty, even once stopping: the select races);
`put` — a caller returns an object it borrowed;
`raise` — the first `Stop` closes the `stopping` channel;
`drain` — the stopping `Stop`'s loop receives one buffered object and
destroys it. -/
inductive Step {T : Type} [DecidableEq T] : Sys T → Sys T → Prop where
  | get (s : Sys T) (x : T) (rest : List T) :
      s.idle = x :: rest →
      Step s { s with idle := rest, borrowed := s.borrowed ++ [x] }
  | put (s : Sys T) (x : T) :
      x ∈ s.borrowed →
      Step s { s with borrowed := s.borrowed.erase x, idle := s.idle ++ [x] }
  | raise (s : Sys T) :
      s.stopping = false →
      Step s { s with stopping := true }
  | drain (s : Sys T) (x : T) (rest : List T) :
      s.stopping = true → s.idle = x :: rest →
      Step s { s with idle := rest, destroyed := s.destroyed ++ [x] }

/-- Reachability of a system state from another by any interleaving of
atomic steps. -/
def Reachable {T : Type} [DecidableEq T] : Sys T → Sys T → Prop :=
  Relation.ReflTransGen Step

/-- The Go runtime's buffered channel, as the waiter-fairness claims need
it: the FIFO buffer plus `recvq`, the runtime's FIFO queue of blocked
receivers (goroutine ids). A receiver that finds nothing ready parks at
the back of `recvq`; a send hands its value directly to the receiver at
the front of `recvq` when one is waiting, and buffers it otherwise. -/
structure Chan (T : Type) where
  buf : List T
  recvq : List Nat
deriving DecidableEq, Repr

/-- A blocked receiver (a waiting `Get`) parks at the back of the runtime's
wait queue. -/
def Chan.park {T : Type} (c : Chan T) (w : Nat) : Chan T :=
  { c with recvq := c.recvq ++ [w] }

/-- A send (`Put`): direct handoff to the longest-waiting blocked receiver
if any (returning its id), otherwise the value goes to the back of the
buffer. -/
def Chan.send {T : Type} (c : Chan T) (x : T) : Chan T × Option Nat :=
  match c.recvq with
  | [] => ({ c with buf := c.buf ++ [x] }, none)
  | w :: ws => ({ c with recvq := ws }, some w)

/-- A sequence of sends; returns the final channel and the ids of the
waiters served, in the order they were served. -/
def Chan.sendAll {T : Type} : Chan T → List T → Chan T × List Nat
  | c, [] => (c, [])
  | c, x :: xs =>
    let s1 := c.send x
    let s2 := Chan.sendAll s1.1 xs
    (s2.1, s1.2.toList ++ s2.2)

/-- The conservation invariant maintained by every atomic step: the
channel capacity is the number of constructed objects, the three disjoint
places an object can be (idle, borrowed, destroyed) together hold exactly
the constructed objects counted with multiplicity, and nothing has been
destroyed while the stop signal is down. -/
def Inv {T : Type} [DecidableEq T] (objects : List T) (s : Sys T) : Prop :=
  s.capacity = objects.length ∧
  (∀ a, s.idle.count a + s.borrowed.count a + s.destroyed.count a = objects.count a) ∧
  (s.stopping = false → s.destroyed = [])

variable {T : Type}

lemma inv_step [DecidableEq T] {objects : List T} {s s' : Sys T}
    (h : Step s s') (hs : Inv objects s) : Inv objects s' := by
  obtain ⟨hcap, hcount, hstop⟩ := hs
  cases h with
  | get x rest hx =>
    refine ⟨hcap, ?_, hstop⟩
    intro a
    have hc := hcount a
    rw [hx] at hc
    by_cases hxa : x = a <;>
      simp [List.count_append, List.count_cons, hxa] at hc ⊢ <;> omega
  | put x hx =>
    refine ⟨hcap, ?_, hstop⟩
    intro a
    have hc := hcount a
    have hpos : 0 < s.borrowed.count x := List.count_pos_iff.mpr hx
    by_cases hxa : x = a
    · subst hxa
      simp [List.count_append, List.count_erase_self]
      omega
    · simp [List.count_append, List.count_cons, List.count_erase_of_ne (Ne.symm hxa), hxa]
      omega
  | raise h =>
    refine ⟨hcap, hcount, ?_⟩
    intro h'
    simp at h'
  | drain x rest h1 hx =>
    refine ⟨hcap, ?_, ?_⟩
    · intro a
      have hc := hcount a
      rw [hx] at hc
      by_cases hxa : x = a <;>
        simp [List.count_append, List.count_cons, hxa] at hc ⊢ <;> omega
    · intro h'
      have h'' : s.stopping = false := h'
      rw [h1] at h''
      simp at h''

lemma inv_reachable [DecidableEq T] {objects : List T} {s : Sys T}
    (h : Reachable (Sys.init objects) s) : Inv objects s := by
  induction h with
  | refl => exact ⟨rfl, by simp [Sys.init], fun _ => rfl⟩
  | tail _ hstep ih => exact inv_step hstep ih

lemma inv_perm [DecidableEq T] {objects : List T} {s : Sys T} (h : Inv objects s) :
    (s.idle ++ s.borrowed ++ s.destroyed).Perm objects := by
  rw [List.perm_iff_count]
  intro a
  simp [List.count_append]
  have := h.2.1 a
  omega

lemma inv_lengths [DecidableEq T] {objects : List T} {s : Sys T} (h : Inv objects s) :
    s.idle.length + s.borrowed.length + s.destroyed.length = objects.length := by
  have := (inv_perm h).length_eq
  simp [List.length_append] at this
  omega

/-- C1 (amended). In every state reachable from a successful `New` with
constructed objects `objects` (capacity `n = objects.length`), the idle,
borrowed and destroyed objects together are a permutation of the
constructed ones — no object is duplicated or lost — so
`idle.length + borrowed.length + destroyed.length = n`; as long as the
stop signal has not been raised nothing is destroyed, and then
`idle.length + borrowed.length = n` exactly as the claim states; and when
the constructed objects are distinct no object appears twice anywhere, in
particular none is destroyed more than once. (The claim's unqualified
`idle + borrowed = n` fails once `Stop`'s drain destroys objects; see the
counterexample.) -/
theorem c1_conservation [DecidableEq T] (objects : List T) (s : Sys T)
    (h : Reachable (Sys.init objects) s) :
    s.idle.length + s.borrowed.length + s.destroyed.length = objects.length ∧
    (s.idle ++ s.borrowed ++ s.destroyed).Perm objects ∧
    (s.stopping = false →
      s.destroyed = [] ∧ s.idle.length + s.borrowed.length = objects.length) ∧
    (objects.Nodup →
      (s.idle ++ s.borrowed ++ s.destroyed).Nodup ∧ s.destroyed.Nodup) := by
  have hi := inv_reachable h
  have hperm := inv_perm hi
  have hlen := inv_lengths hi
  refine ⟨hlen, hperm, ?_, ?_⟩
  · intro hstop
    have hd := hi.2.2 hstop
    refine ⟨hd, ?_⟩
    rw [hd] at hlen
    simpa using hlen
  · intro hnd
    have hnd' : (s.idle ++ s.borrowed ++ s.destroyed).Nodup := hperm.nodup_iff.mpr hnd
    exact ⟨hnd', hnd'.of_append_right⟩

/-- Witness for C1: the amended conservation statement, evaluated in the
initial state of a pool of two objects. -/
theorem c1_conservation_witness :
    ([0, 1] : List Nat).length + ([] : List Nat).length + ([] : List Nat).length = 2 ∧
    (Sys.init [0, 1]).idle.length + (Sys.init [0, 1]).borrowed.length +
      (Sys.init [0, 1]).destroyed.length = ([0, 1] : List Nat).length := by
  have h := c1_conservation [0, 1] (Sys.init [0, 1]) Relation.ReflTransGen.refl
  exact ⟨by decide, h.1⟩

/-- Counterexample to C1 as stated: with one object and the operation
sequence `Stop` (raise the signal, drain one object), the reached state
has `idle.length + borrowed.length = 0 ≠ 1 = n`: the destroyed object is
neither idle nor borrowed, so the claimed equality breaks as soon as
`Stop` starts destroying. -/
theorem c1_counterexample :
    ¬ (∀ s : Sys Nat, Reachable (Sys.init [0]) s →
        s.idle.length + s.borrowed.length = ([0] : List Nat).length) := by
  intro h
  have h1 : Step (Sys.init [0]) (⟨[0], [], [], true, 1⟩ : Sys Nat) :=
    Step.raise (Sys.init [0]) rfl
  have h2 : Step (⟨[0], [], [], true, 1⟩ : Sys Nat) (⟨[], [], [0], true, 1⟩ : Sys Nat) :=
    Step.drain ⟨[0], [], [], true, 1⟩ 0 [] rfl rfl
  have hr : Reachable (Sys.init [0]) (⟨[], [], [0], true, 1⟩ : Sys Nat) :=
    Relation.ReflTransGen.head h1 (Relation.ReflTransGen.single h2)
  have := h _ hr
  simp at this

/-- C10. For every configuration, `New` returns exactly one of the two
shapes: a pool together with no error, or no pool together with an error —
never both, never neither. This holds in every branch of `New`: config
check failure, constructor failure with rollback, and success. -/
theorem c10_new_shape (c : Config T) :
    ((New c).pool.isSome ∧ (New c).err = none) ∨
    ((New c).pool = none ∧ (New c).err.isSome) := by
  unfold New
  cases hchk : c.Check with
  | some msg => simp
  | none =>
    cases hnf : c.NewFunc with
    | none => simp
    | some f =>
      cases hfill : newFill f 0 c.Count.toNat [] with
      | error pe =>
        obtain ⟨e, built⟩ := pe
        simp [hfill]
      | ok idle => simp [hfill]

lemma newFill_error (f : Nat → Except String T) (a : Nat → T) (e : String) :
    ∀ (m r i : Nat) (acc : List T), m < r →
      (∀ j, j < m → f (i + j) = .ok (a (i + j))) →
      f (i + m) = .error e →
      newFill f i r acc = .error (e, acc ++ (List.range' i m).map a) := by
  intro m
  induction m with
  | zero =>
    intro r i acc hr hok herr
    obtain ⟨r', rfl⟩ : ∃ r', r = r' + 1 := ⟨r - 1, by omega⟩
    simp only [Nat.add_zero] at herr
    simp [newFill, herr]
  | succ m ih =>
    intro r i acc hr hok herr
    obtain ⟨r', rfl⟩ : ∃ r', r = r' + 1 := ⟨r - 1, by omega⟩
    have h0 : f i = .ok (a i) := by
      have := hok 0 (by omega)
      simpa using this
    have hrec := ih r' (i + 1) (acc ++ [a i]) (by omega)
      (fun j hj => by
        have := hok (j + 1) (by omega)
        simpa [Nat.add_assoc, Nat.add_comm 1 j] using this)
      (by
        have : i + 1 + m = i + (m + 1) := by omega
        rw [this]
        exact herr)
    simp [newFill, h0, hrec, List.range'_succ]

/-- C3. If the constructor succeeds on its first `k-1` calls (producing
`a 0, …, a (k-2)`) and fails on the k-th with cause `e`, then `New`
returns no pool, the `ErrNew`-wrapping creation error carrying `e`, and —
when a destructor is present — passes exactly the `k-1` previously
constructed objects to it, in construction order; with no destructor, no
destructor call is made. No object survives (the result holds no pool and
the destroyed trace has all `k-1` objects). -/
theorem c3_rollback (c : Config T) (f : Nat → Except String T) (a : Nat → T)
    (e : String) (k : Nat)
    (hf : c.NewFunc = some f) (hcnt : 0 ≤ c.Count)
    (hk1 : 1 ≤ k) (hk2 : k ≤ c.Count.toNat)
    (hok : ∀ j, j < k - 1 → f j = .ok (a j))
    (herr : f (k - 1) = .error e) :
    New c = ⟨none, some (.newErr e),
             if c.hasDestroyFunc then (List.range (k - 1)).map a else []⟩ ∧
    ((List.range (k - 1)).map a).length = k - 1 := by
  have hc0 : ¬ c.Count < 0 := by omega
  have hfill : newFill f 0 c.Count.toNat [] =
      .error (e, [] ++ (List.range' 0 (k - 1)).map a) := by
    apply newFill_error f a e (k - 1) c.Count.toNat 0 [] (by omega)
    · intro j hj
      simpa using hok j hj
    · simpa using herr
  rw [List.range_eq_range']
  constructor
  · unfold New Config.Check
    rw [if_neg hc0]
    simp only [hf, Option.isNone_some, Bool.false_eq_true, if_false, Option.isNone_none]
    simp [hfill]
  · simp

/-- Witness for C3: a pool of capacity 2 whose constructor yields `10`
then fails with cause `boom`; `New` destroys the one built object and
returns the wrapping error with no pool. -/
theorem c3_rollback_witness :
    New (⟨2, some (fun j => if j = 0 then Except.ok 10 else Except.error "boom"),
          true⟩ : Config Nat) =
      ⟨none, some (.newErr "boom"), [10]⟩ := by
  have h := c3_rollback
    (⟨2, some (fun j => if j = 0 then Except.ok 10 else Except.error "boom"),
       true⟩ : Config Nat)
    (fun j => if j = 0 then Except.ok 10 else Except.error "boom")
    (fun _ => 10) "boom" 2 rfl (by decide) (by decide) (by decide)
    (fun j hj => by
      have hj0 : j = 0 := by omega
      subst hj0
      rfl)
    rfl
  simpa using h.1

/-- C2 (the drain contract of the first `Stop`). For a pool on which the
stop signal is not yet raised, whose idle objects together with the
borrowed objects later returned by `Put` (`arrivals`) are exactly the
`capacity` constructed objects: `Stop` returns, having destroyed the
currently idle objects first, in FIFO order, then each returned object as
it arrives — `capacity` objects in total, a permutation of the
constructed ones, each destroyed exactly once when the constructed
objects are distinct. And `Stop` blocks (does not return) as long as
fewer than `capacity` objects have entered the channel. -/
theorem c2_stop_drains_all (p : Pool T) (arrivals constructed : List T)
    (hstop : p.stopping = false)
    (hcap : p.capacity = constructed.length)
    (hperm : (p.idle ++ arrivals).Perm constructed) :
    Stop p arrivals =
      some ({ p with stopping := true, idle := [] }, p.idle ++ arrivals) ∧
    (p.idle ++ arrivals).length = constructed.length ∧
    (constructed.Nodup → (p.idle ++ arrivals).Nodup) ∧
    (∀ early : List T, p.idle.length + early.length < p.capacity →
      Stop p early = none) := by
  have hlen : (p.idle ++ arrivals).length = constructed.length := hperm.length_eq
  have hlen' : p.idle.length + arrivals.length = constructed.length := by
    simpa using hlen
  refine ⟨?_, hlen, fun h => hperm.nodup_iff.mpr h, ?_⟩
  · unfold Stop
    rw [if_neg (by simp [hstop]), if_pos (by omega)]
    have htake : (p.idle ++ arrivals).take p.capacity = p.idle ++ arrivals := by
      apply List.take_of_length_le
      omega
    have hdrop : (p.idle ++ arrivals).drop p.capacity = [] := by
      apply List.drop_eq_nil_of_le
      omega
    rw [htake, hdrop]
  · intro early hearly
    unfold Stop
    rw [if_neg (by simp [hstop]), if_neg (by omega)]

/-- Witness for C2: capacity 5, objects 1,2 idle and 3,4,5 borrowed; the
three `Put`s arrive after `Stop` starts; `Stop` returns having destroyed
1,2 (the idle ones, FIFO) then 3,4,5 — all five objects, once each. -/
theorem c2_stop_witness :
    Stop (⟨[1, 2], 5, false⟩ : Pool Nat) [3, 4, 5] =
      some (⟨[], 5, true⟩, [1, 2, 3, 4, 5]) := by
  have h := c2_stop_drains_all (⟨[1, 2], 5, false⟩ : Pool Nat) [3, 4, 5]
    [1, 2, 3, 4, 5] rfl rfl (by decide)
  simpa using h.1

/-- C6. `Stop` is idempotent: any `Stop` call that finds the signal
already raised — in particular any call after a completed `Stop`, or one
racing a first `Stop` that has raised the signal and is still draining —
returns immediately, destroys nothing, and leaves the pool unchanged; so
`Stop` followed by `Stop` has the same effect as a single `Stop`. -/
theorem c6_stop_idempotent (p : Pool T) (a b : List T) (p1 : Pool T) (d1 : List T)
    (h : Stop p a = some (p1, d1)) :
    p1.stopping = true ∧ Stop p1 b = some (p1, []) ∧
    (p.stopping = true → p1 = p ∧ d1 = []) := by
  unfold Stop at h
  split_ifs at h with h1 h2
  · obtain ⟨rfl, rfl⟩ : p = p1 ∧ [] = d1 := by
      have := Option.some.inj h
      exact ⟨congrArg Prod.fst this, congrArg Prod.snd this⟩
    refine ⟨h1, ?_, fun _ => ⟨rfl, rfl⟩⟩
    unfold Stop
    rw [if_pos h1]
  · have hp1 : p1 = { p with stopping := true, idle := (p.idle ++ a).drop p.capacity } := by
      have := Option.some.inj h
      exact (congrArg Prod.fst this).symm
    refine ⟨by rw [hp1], ?_, fun hc => absurd hc (by simp [h1])⟩
    unfold Stop
    rw [if_pos (by rw [hp1])]

/-- Witness for C6: stopping the one-object pool destroys its object;
stopping the resulting stopped pool returns it unchanged and destroys
nothing. -/
theorem c6_stop_witness :
    Stop (⟨[], 1, true⟩ : Pool Nat) [] = some (⟨[], 1, true⟩, []) := by
  have h := c6_stop_idempotent (⟨[1], 1, false⟩ : Pool Nat) [] []
    ⟨[], 1, true⟩ [1] (by decide)
  exact h.2.1

/-- C7. Under correct use `Put` never fails and never blocks: in every
reachable state in which some object is borrowed (the precondition for a
correct `Put`), the idle channel has strictly fewer than `capacity`
elements, so the send has room. And a `Put` made after `Stop` has begun
is drained and destroyed by `Stop` rather than left idle: each object
arriving after the signal is in `Stop`'s destruction list, and the final
idle queue is empty. -/
theorem c7_put_safe [DecidableEq T] :
    (∀ (objects : List T) (s : Sys T), Reachable (Sys.init objects) s →
      s.borrowed ≠ [] → s.idle.length < s.capacity) ∧
    (∀ (p : Pool T) (arrivals : List T) (x : T), x ∈ arrivals →
      p.stopping = false → p.capacity = p.idle.length + arrivals.length →
      ∃ q d, Stop p arrivals = some (q, d) ∧ x ∈ d ∧ q.idle = []) := by
  constructor
  · intro objects s h hb
    have hi := inv_reachable h
    have hlen := inv_lengths hi
    have hcap := hi.1
    have hbpos : 0 < s.borrowed.length := List.length_pos.mpr hb
    omega
  · intro p arrivals x hx hstop hcap
    have htake : (p.idle ++ arrivals).take p.capacity = p.idle ++ arrivals := by
      apply List.take_of_length_le
      simp
      omega
    have hdrop : (p.idle ++ arrivals).drop p.capacity = [] := by
      apply List.drop_eq_nil_of_le
      simp
      omega
    refine ⟨{ p with stopping := true, idle := (p.idle ++ arrivals).drop p.capacity },
            (p.idle ++ arrivals).take p.capacity, ?_, ?_, ?_⟩
    · unfold Stop
      rw [if_neg (by simp [hstop]), if_pos (by omega)]
    · rw [htake]
      exact List.mem_append_right _ hx
    · simpa using hdrop

/-- Witness for C7: in the state where the single object of a one-object
pool is borrowed, the idle queue (empty) is below capacity, so the `Put`
send has room; and the object `9` returned after `Stop` begins on a
two-object pool appears in the destruction list, with nothing left idle. -/
theorem c7_put_witness :
    (⟨[], [0], [], false, 1⟩ : Sys Nat).idle.length <
      (⟨[], [0], [], false, 1⟩ : Sys Nat).capacity ∧
    ∃ q d, Stop (⟨[1], 2, false⟩ : Pool Nat) [9] = some (q, d) ∧ 9 ∈ d ∧ q.idle = [] := by
  constructor
  · exact (c7_put_safe (T := Nat)).1 [0] ⟨[], [0], [], false, 1⟩
      (Relation.ReflTransGen.single (Step.get (Sys.init [0]) 0 [] rfl))
      (by decide)
  · exact (c7_put_safe (T := Nat)).2 (⟨[1], 2, false⟩ : Pool Nat) [9] 9
      (by decide) rfl rfl

lemma getStep_unique (p : Pool T) (ctx : Ctx) (x : T) (rest : List T)
    (hidle : p.idle = x :: rest) (hs : p.stopping = false)
    (hc : ctx.cancelled = false) (o : GetOutcome T) (q : Pool T) :
    GetStep p ctx o q ↔ o = .obj x ∧ q = { p with idle := rest } := by
  constructor
  · intro h
    cases h with
    | idle x' rest' hx =>
      rw [hidle] at hx
      obtain ⟨rfl, rfl⟩ : x' = x ∧ rest' = rest := by
        cases hx
        exact ⟨rfl, rfl⟩
      exact ⟨rfl, rfl⟩
    | cancel hctx => rw [hc] at hctx; cases hctx
    | stop hstop => rw [hs] at hstop; cases hstop
  · rintro ⟨rfl, rfl⟩
    exact GetStep.idle p ctx x rest hidle

/-- C5. Strict FIFO reuse of idle objects: after A, B, C are `Put` into a
pool with an empty idle queue (no intervening `Get`), the queue is
exactly `[A, B, C]`, and — with a live token and the pool not stopping —
each of the next three `Get`s has exactly one possible outcome: the
first returns A, the second B, the third C. -/
theorem c5_fifo_idle_reuse (p : Pool T) (A B C : T) (ctx : Ctx)
    (h0 : p.idle = []) (hs : p.stopping = false) (hc : ctx.cancelled = false) :
    (Put (Put (Put p A) B) C).idle = [A, B, C] ∧
    (∀ o q, GetStep (Put (Put (Put p A) B) C) ctx o q ↔
      o = .obj A ∧ q = { p with idle := [B, C] }) ∧
    (∀ o q, GetStep ({ p with idle := [B, C] } : Pool T) ctx o q ↔
      o = .obj B ∧ q = { p with idle := [C] }) ∧
    (∀ o q, GetStep ({ p with idle := [C] } : Pool T) ctx o q ↔
      o = .obj C ∧ q = { p with idle := ([] : List T) }) := by
  have h3 : (Put (Put (Put p A) B) C).idle = [A, B, C] := by
    simp [Put, h0]
  refine ⟨h3, ?_, ?_, ?_⟩
  · intro o q
    have := getStep_unique (Put (Put (Put p A) B) C) ctx A [B, C] h3 hs hc o q
    simpa [Put] using this
  · intro o q
    exact getStep_unique ({ p with idle := [B, C] } : Pool T) ctx B [C] rfl hs hc o q
  · intro o q
    exact getStep_unique ({ p with idle := [C] } : Pool T) ctx C [] rfl hs hc o q

/-- Witness for C5: with 1, 2, 3 returned in that order to an empty
3-capacity pool, the first `Get` necessarily yields 1, leaving `[2, 3]`. -/
theorem c5_fifo_witness :
    GetStep (Put (Put (Put (⟨[], 3, false⟩ : Pool Nat) 1) 2) 3) ⟨false, ""⟩
      (.obj 1) (⟨[2, 3], 3, false⟩ : Pool Nat) :=
  ((c5_fifo_idle_reuse (⟨[], 3, false⟩ : Pool Nat) 1 2 3 ⟨false, ""⟩ rfl rfl rfl).2.1
    (.obj 1) (⟨[2, 3], 3, false⟩ : Pool Nat)).mpr ⟨rfl, rfl⟩

/-- C4 (amended). A `Get` whose token is already cancelled can always
commit to the cancellation case — returning the zero value with the
cancellation error carrying the token's cause and leaving the idle queue
untouched — and when no idle object is available and the pool is not
stopping this is its only possible outcome. (The claim's "never removes
an object even when idle objects are available" fails: the `select` may
commit to a ready idle receive instead; see the counterexample.) -/
theorem c4_already_cancelled (p : Pool T) (ctx : Ctx) (hc : ctx.cancelled = true) :
    GetStep p ctx (.cancelled ctx.cause) p ∧
    (p.idle = [] → p.stopping = false →
      ∀ o q, GetStep p ctx o q → o = .cancelled ctx.cause ∧ q = p) := by
  refine ⟨GetStep.cancel p ctx hc, ?_⟩
  intro hidle hstop o q h
  cases h with
  | idle x rest hx => rw [hidle] at hx; cases hx
  | cancel hctx => exact ⟨rfl, rfl⟩
  | stop hs => rw [hstop] at hs; cases hs

/-- Witness for C4: on an empty non-stopping pool, a `Get` with an
already-cancelled token yields the cancellation outcome with the token's
cause, leaving the pool unchanged. -/
theorem c4_already_cancelled_witness :
    GetStep (⟨[], 1, false⟩ : Pool Nat) ⟨true, "deadline exceeded"⟩
      (.cancelled "deadline exceeded") ⟨[], 1, false⟩ :=
  (c4_already_cancelled (⟨[], 1, false⟩ : Pool Nat) ⟨true, "deadline exceeded"⟩ rfl).1

/-- Counterexample to C4 as stated: with an idle object available, the
`select` of a `Get` whose token is already cancelled may commit to the
idle receive — it returns object 7 and removes it from the queue, not the
cancellation error. -/
theorem c4_counterexample :
    ¬ (∀ (p : Pool Nat) (ctx : Ctx) (o : GetOutcome Nat) (q : Pool Nat),
        ctx.cancelled = true → GetStep p ctx o q →
        o = .cancelled ctx.cause ∧ q = p) := by
  intro h
  have hstep : GetStep (⟨[7], 1, false⟩ : Pool Nat) ⟨true, "ctx cancelled"⟩
      (.obj 7) (⟨[], 1, false⟩ : Pool Nat) :=
    GetStep.idle _ _ 7 [] rfl
  have := (h _ _ _ _ rfl hstep).1
  simp at this

/-- C8 (amended). Once the stop signal is raised, `Get` never blocks: the
stopping case is always ready (first conjunct). Once the idle queue is
also empty — in particular after `Stop` has returned, when all objects
are destroyed — `Get` can never return an object, and with a
non-cancelled token its only possible outcome is the zero value with
`ErrStoppingOrStopped`. (The claim's "once the signal is raised every
`Get` fails with `ErrStoppingOrStopped`" fails while undrained idle
objects remain, and a simultaneously-cancelled token may also win the
race; see the counterexample.) -/
theorem c8_after_raise (p : Pool T) (ctx : Ctx) (hs : p.stopping = true) :
    GetStep p ctx .stopped p ∧
    (p.idle = [] → ∀ (x : T) (o : GetOutcome T) (q : Pool T),
      GetStep p ctx o q → o ≠ .obj x) ∧
    (p.idle = [] → ctx.cancelled = false →
      ∀ o q, GetStep p ctx o q → o = .stopped ∧ q = p) := by
  refine ⟨GetStep.stop p ctx hs, ?_, ?_⟩
  · intro hidle x o q h
    cases h with
    | idle x' rest hx => rw [hidle] at hx; cases hx
    | cancel hctx => simp
    | stop _ => simp
  · intro hidle hc o q h
    cases h with
    | idle x' rest hx => rw [hidle] at hx; cases hx
    | cancel hctx => rw [hc] at hctx; cases hctx
    | stop _ => exact ⟨rfl, rfl⟩

/-- Witness for C8: on a fully stopped (drained) pool, a `Get` with a live
token takes the stopping branch: zero value plus `ErrStoppingOrStopped`. -/
theorem c8_after_raise_witness :
    GetStep (⟨[], 1, true⟩ : Pool Nat) ⟨false, ""⟩ .stopped ⟨[], 1, true⟩ :=
  (c8_after_raise (⟨[], 1, true⟩ : Pool Nat) ⟨false, ""⟩ rfl).1

/-- Counterexample to C8 as stated: after the signal is raised but before
the drain empties the queue, a `Get` may still win the race for the idle
object — it returns object 5, not `ErrStoppingOrStopped`. -/
theorem c8_counterexample :
    ¬ (∀ (p : Pool Nat) (ctx : Ctx) (o : GetOutcome Nat) (q : Pool Nat),
        p.stopping = true → GetStep p ctx o q → o = .stopped) := by
  intro h
  have hstep : GetStep (⟨[5], 1, true⟩ : Pool Nat) ⟨false, ""⟩
      (.obj 5) (⟨[], 1, true⟩ : Pool Nat) :=
    GetStep.idle _ _ 5 [] rfl
  have := h _ _ _ _ rfl hstep
  simp at this

lemma sendAll_served_prefix (c : Chan T) (xs : List T) :
    ∃ t, (Chan.sendAll c xs).2 ++ t = c.recvq := by
  induction xs generalizing c with
  | nil => exact ⟨c.recvq, by simp [Chan.sendAll]⟩
  | cons x xs ih =>
    cases hq : c.recvq with
    | nil =>
      obtain ⟨t, ht⟩ := ih ({ c with buf := c.buf ++ [x] })
      refine ⟨t, ?_⟩
      have hr : ({ c with buf := c.buf ++ [x] } : Chan T).recvq = c.recvq := rfl
      rw [hr] at ht
      simpa [Chan.sendAll, Chan.send, hq] using ht
    | cons w ws =>
      obtain ⟨t, ht⟩ := ih ({ c with recvq := ws })
      refine ⟨t, ?_⟩
      simp [Chan.sendAll, Chan.send, hq]
      simpa using ht

/-- C9. FIFO fairness among blocked waiters, as provided by the channel's
wait-queue discipline: waiters park at the back of `recvq` in arrival
order; a `Put` (send) hands its object to the waiter at the front — so
with W1 parked before W2 the next `Put` satisfies W1, not W2 — and any
sequence of sends serves waiters as a prefix of the arrival queue, so no
later-arriving waiter is ever served before an earlier one still
waiting. -/
theorem c9_waiter_fifo (T : Type) :
    (∀ (c : Chan T) (w1 w2 : Nat),
      ((c.park w1).park w2).recvq = c.recvq ++ [w1, w2]) ∧
    (∀ (c : Chan T) (x : T) (w1 : Nat) (ws : List Nat),
      c.recvq = w1 :: ws → (c.send x).2 = some w1) ∧
    (∀ (c : Chan T) (xs : List T), ∃ t, (Chan.sendAll c xs).2 ++ t = c.recvq) := by
  refine ⟨?_, ?_, fun c xs => sendAll_served_prefix c xs⟩
  · intro c w1 w2
    simp [Chan.park]
  · intro c x w1 ws hq
    simp [Chan.send, hq]

/-- Witness for C9: waiters 1 then 2 blocked on an empty channel; the next
send serves waiter 1. -/
theorem c9_waiter_fifo_witness :
    ((⟨[], [1, 2]⟩ : Chan Nat).send 42).2 = some 1 :=
  (c9_waiter_fifo Nat).2.1 ⟨[], [1, 2]⟩ 42 1 [2] rfl

end SimplePool
